import Mathlib

/-!
Verification of the ratzilla cell-to-CSS translation layer
(`src/backend/utils.rs`).

The embedding works over `List Char` as the model of Rust `&str` / `String`
values, so that parsing and serialisation of inline CSS declarations can be
reasoned about by structural induction.  DOM side effects (element creation,
attribute mutation) are modelled by returning the attribute values that the
code would write; Rust panics (`unwrap`, out-of-bounds indexing) are modelled
by `Option`, with `none` standing for the panic.
-/

namespace Ratzilla

/-! ## Data model -/

/-- Modelled from the spec: the abstract color value of §3/§4.1.  The concrete
`Color` enum comes from the external terminal-rendering library (ratatui); it
is "unset" (`reset`), a named palette entry, or an explicit RGB triple. -/
inductive Color where
  | reset
  | black
  | red
  | green
  | yellow
  | blue
  | magenta
  | cyan
  | gray
  | white
  | rgb (r g b : Nat)
deriving DecidableEq

/-- The modifier flags read by `get_cell_style_as_css` (`ratatui::style::Modifier`
bitflags, modelled as one `Bool` per flag consulted by the code). -/
structure Modifier where
  bold : Bool
  dim : Bool
  italic : Bool
  underlined : Bool
  hidden : Bool
  crossed_out : Bool
  reversed : Bool
deriving DecidableEq

/-- One grid cell: glyph (`symbol`), foreground, background, modifier flags
(`ratatui::buffer::Cell`, the fields read by `src/backend/utils.rs`). -/
structure Cell where
  symbol : List Char
  fg : Color
  bg : Color
  modifier : Modifier
deriving DecidableEq

/-- Source `Cell::default()`: a blank glyph with unset colors and no modifiers. -/
def Cell.default : Cell :=
  { symbol := [' '], fg := .reset, bg := .reset,
    modifier := { bold := false, dim := false, italic := false,
                  underlined := false, hidden := false, crossed_out := false,
                  reversed := false } }

/-- Modelled from the spec: `ansi_to_rgb` lives in `src/backend/color.rs`,
which is not under `src/`.  Per §4.1 the translation returns `none` exactly
for the unset/default color, maps every named palette entry to a fixed
conventional RGB triple, and passes explicit RGB through unchanged. -/
def ansi_to_rgb : Color → Option (Nat × Nat × Nat)
  | .reset => none
  | .black => some (0, 0, 0)
  | .red => some (255, 0, 0)
  | .green => some (0, 255, 0)
  | .yellow => some (255, 255, 0)
  | .blue => some (0, 0, 255)
  | .magenta => some (255, 0, 255)
  | .cyan => some (0, 255, 255)
  | .gray => some (128, 128, 128)
  | .white => some (255, 255, 255)
  | .rgb r g b => some (r, g, b)

/-! ## Decimal formatting (the `{}` of `format!` on integers) -/

/-- Fuel-driven decimal digits, most significant first (structural so that the
kernel can evaluate it). -/
def natDigitsCore : Nat → Nat → List Char
  | 0, _ => []
  | fuel + 1, n =>
    if n < 10 then [Nat.digitChar n]
    else natDigitsCore fuel (n / 10) ++ [Nat.digitChar (n % 10)]

/-- Decimal representation of a natural number, as `format!("{}", n)` prints it. -/
def natDigits (n : Nat) : List Char := natDigitsCore (n + 1) n

/-! ## Splitting and trimming (`str::split`, `str::splitn`, `str::trim`) -/

/-- Source `css.split(';')`: split into the (possibly empty) runs between `';'`
separators.  Always returns at least one segment. -/
def splitOnSemi : List Char → List (List Char)
  | [] => [[]]
  | c :: rest =>
    if c = ';' then [] :: splitOnSemi rest
    else
      match splitOnSemi rest with
      | [] => [[c]]
      | g :: gs => (c :: g) :: gs

/-- Source `decl.splitn(2, ':')` followed by the two `parts.next()?` calls: `some`
of the text before and after the first `':'`, or `none` if there is none. -/
def splitFirstColon : List Char → Option (List Char × List Char)
  | [] => none
  | c :: rest =>
    if c = ':' then some ([], rest)
    else (splitFirstColon rest).map fun p => (c :: p.1, p.2)

/-- Source `str::trim`: drop whitespace from both ends. -/
def trimChars (l : List Char) : List Char :=
  ((l.dropWhile Char.isWhitespace).reverse.dropWhile Char.isWhitespace).reverse

/-- Source `str::eq_ignore_ascii_case`, modelled per character (ASCII letters compare
case-insensitively, all other characters exactly). -/
def lowerAscii (c : Char) : Char :=
  if 'A' ≤ c ∧ c ≤ 'Z' then Char.ofNat (c.toNat + 32) else c

/-- Source `a.eq_ignore_ascii_case(&b)`. -/
def eq_ignore_ascii_case (a b : List Char) : Bool :=
  a.map lowerAscii == b.map lowerAscii

/-! ## The inline-style parser and serialiser (`src/backend/utils.rs:108-134`) -/

/-- The body of `parse_inline_style`'s `filter_map` closure: trim the
declaration, skip it when empty, split at the first `':'`, trim key and
value, and skip when either is empty. -/
def parseDecl (decl : List Char) : Option (List Char × List Char) :=
  let d := trimChars decl
  if d = [] then none
  else
    match splitFirstColon d with
    | none => none
    | some (k0, v0) =>
      let k := trimChars k0
      let v := trimChars v0
      if k = [] ∨ v = [] then none else some (k, v)

/-- Source `parse_inline_style`: split an inline CSS string on `';'` and parse each
declaration into a `(property, value)` pair, silently dropping malformed ones. -/
def parse_inline_style (css : List Char) : List (List Char × List Char) :=
  (splitOnSemi css).filterMap parseDecl

/-- Source `build_inline_style`: serialise `(field, value)` pairs back to
`"field: value;"` statements. -/
def build_inline_style (styles : List (List Char × List Char)) : List Char :=
  match styles with
  | [] => []
  | (k, v) :: rest => k ++ ':' :: ' ' :: v ++ ';' :: build_inline_style rest

/-- Source `set_or_remove_style_attribute`: the value the `style` attribute ends up
with — `none` models `remove_attribute("style")`, `some css` models
`set_attribute("style", css)`. -/
def set_or_remove_style_attribute (css : List Char) : Option (List Char) :=
  if css = [] then none else some css

/-- The update loop of `update_css_field` (`utils.rs:161-174`): replace the
value of the first pair whose key matches `target` case-insensitively, or
append `(target, v')` at the end when no pair matches. -/
def update_or_append (target v' : List Char) :
    List (List Char × List Char) → List (List Char × List Char)
  | [] => [(target, v')]
  | (k, vv) :: rest =>
    if eq_ignore_ascii_case k target then (k, v') :: rest
    else (k, vv) :: update_or_append target v' rest

/-- The pure text core of `update_css_field`: parse the current style text,
set/update (`some`) or remove (`none`) the field, and rebuild the CSS string.
The surrounding element access (`get_attribute` / `set_or_remove_style_attribute`)
is modelled separately. -/
def update_css_field (css field : List Char) (value : Option (List Char)) : List Char :=
  let styles := parse_inline_style css
  let target := trimChars field
  let styles' :=
    match value with
    | some v => update_or_append target (trimChars v) styles
    | none => styles.filter fun p => !eq_ignore_ascii_case p.1 target
  build_inline_style styles'

/-- Source `update_css_field` including the final attribute write: `none` means the
`style` attribute was removed from the element. -/
def update_css_field_attr (attr : Option (List Char)) (field : List Char)
    (value : Option (List Char)) : Option (List Char) :=
  set_or_remove_style_attribute (update_css_field (attr.getD []) field value)

/-! ## The style compositor (`get_cell_style_as_css`, `utils.rs:46-105`) -/

/-- Source `contains_braille` (`utils.rs:292-297`): the first character of the cell's
symbol lies in the Braille Unicode block U+2800-U+28FF. -/
def contains_braille (cell : Cell) : Bool :=
  match cell.symbol with
  | [] => false
  | c :: _ => 0x2800 ≤ c.toNat && c.toNat ≤ 0x28FF

/-- The foreground after the `REVERSED` swap of `utils.rs:47-52` (the local
`fg` at the point the fallbacks of lines 54-73 are applied). -/
def resolved_fg (cell : Cell) : Option (Nat × Nat × Nat) :=
  if cell.modifier.reversed then ansi_to_rgb cell.bg else ansi_to_rgb cell.fg

/-- The background after the `REVERSED` swap of `utils.rs:47-52`. -/
def resolved_bg (cell : Cell) : Option (Nat × Nat × Nat) :=
  if cell.modifier.reversed then ansi_to_rgb cell.fg else ansi_to_rgb cell.bg

/-- The text `format!("rgb({}, {}, {})", c.0, c.1, c.2)` produces. -/
def rgbVal (c : Nat × Nat × Nat) : List Char :=
  "rgb(".data ++ natDigits c.1 ++ ", ".data ++ natDigits c.2.1 ++ ", ".data ++
    natDigits c.2.2 ++ [')']

/-- Source `fg_style` (`utils.rs:54-57`). -/
def fg_style (fg : Option (Nat × Nat × Nat)) : List Char :=
  match fg with
  | some c => "color: ".data ++ rgbVal c ++ [';']
  | none => "color: rgb(255, 255, 255);".data

/-- Source `bg_style` (`utils.rs:59-73`): if the cell is reversed but has no valid
background, default the background to white; otherwise transparent. -/
def bg_style (reversed : Bool) (bg : Option (Nat × Nat × Nat)) : List Char :=
  match bg with
  | some c => "background-color: ".data ++ rgbVal c ++ [';']
  | none =>
    if reversed then "background-color: rgb(255, 255, 255);".data
    else "background-color: transparent;".data

/-- Source `modifier_style` (`utils.rs:75-93`): one `push_str` per set flag, each
ending in `"; "`. -/
def modifier_style (m : Modifier) : List Char :=
  (if m.bold then "font-weight: bold; ".data else []) ++
  (if m.dim then "opacity: 0.5; ".data else []) ++
  (if m.italic then "font-style: italic; ".data else []) ++
  (if m.underlined then "text-decoration: underline; ".data else []) ++
  (if m.hidden then "visibility: hidden; ".data else []) ++
  (if m.crossed_out then "text-decoration: line-through; ".data else [])

/-- Source `get_cell_style_as_css` (`utils.rs:46-105`).  `w` abstracts the external
`unicode_width` crate's `UnicodeWidthStr::width` used for the `width: {}ch`
sizing; every theorem below holds for an arbitrary such width function. -/
def get_cell_style_as_css (w : List Char → Nat) (cell : Cell) : List Char :=
  let braille_style :=
    if contains_braille cell then "font-variant-numeric: tabular-nums; ".data else []
  let sizing :=
    "display: inline-block; width: ".data ++ natDigits (w cell.symbol) ++ "ch;".data
  fg_style (resolved_fg cell) ++ ' ' ::
    (bg_style cell.modifier.reversed (resolved_bg cell) ++ ' ' ::
      (modifier_style cell.modifier ++ ' ' :: (braille_style ++ ' ' :: sizing)))

/-- Source `create_span`'s style computation is `get_cell_style_as_css`; `create_anchor`
(`utils.rs:35-43`) builds the href from all cells' symbols and takes the style
from `cells[0]`.  The DOM document is abstracted away; the unchecked `cells[0]`
indexing is modelled by `List.head?`, with `none` standing for the
index-out-of-bounds panic on an empty slice. -/
def create_anchor (w : List Char → Nat) (cells : List Cell) :
    Option (List Char × List Char) :=
  cells.head?.map fun c => ((cells.map Cell.symbol).flatten, get_cell_style_as_css w c)

/-! ## Viewport sizing (`utils.rs:194-235`) -/

/-- Source `js_val_to_int::<u16>` (`utils.rs:195-197`): the `JsValue` is modelled as
`Option Nat` (`none` when `as_f64` fails); `u16::try_from` fails from 2^16 up. -/
def js_val_to_int (val : Option Nat) : Option Nat :=
  val.bind fun i => if i < 65536 then some i else none

/-- Source `get_raw_window_size` (`utils.rs:194-207`).  The argument models the host
query: `none` when `window()` is unavailable, otherwise the (already
`as_f64`-converted) results of `inner_width()`/`inner_height()`, with `none`
for a failed or non-numeric query.  Any failure falls back to `(120, 120)`. -/
def get_raw_window_size (window : Option (Option Nat × Option Nat)) : Nat × Nat :=
  (window.bind fun s =>
    (js_val_to_int s.1).bind fun w =>
      (js_val_to_int s.2).map fun h => (w, h)).getD (120, 120)

/-- Source `get_raw_screen_size` (`utils.rs:210-213`): `window().unwrap().screen().unwrap()`
then `s.width().unwrap()` / `s.height().unwrap()`.  Every `unwrap` panic is
modelled as `none`: outer `none` = no window, `some none` = `screen()` failed,
and a `none` width/height = the corresponding query failed. -/
def get_raw_screen_size (window : Option (Option (Option Int × Option Int))) :
    Option (Int × Int) :=
  match window with
  | none => none
  | some none => none
  | some (some (ow, oh)) => ow.bind fun w => oh.map fun h => (w, h)

/-- The grid dimensions used by `get_sized_buffer_from_canvas` (`utils.rs:231-235`):
`canvas.client_width() as u16 / 10` and `client_height() as u16 / 19`.  The
`as u16` cast truncates to the low 16 bits. -/
def surface_grid_size (clientWidth clientHeight : Nat) : Nat × Nat :=
  (clientWidth % 65536 / 10, clientHeight % 65536 / 19)

/-- Source `get_sized_buffer_from_canvas` (`utils.rs:231-235`): a `height × width`
grid of default cells. -/
def get_sized_buffer_from_canvas (clientWidth clientHeight : Nat) : List (List Cell) :=
  let width := clientWidth % 65536 / 10
  let height := clientHeight % 65536 / 19
  List.replicate height (List.replicate width Cell.default)

/-! ## The parsed form of a composed style -/

/-- The `(property, value)` pairs that `parse_inline_style` recovers from
`get_cell_style_as_css`'s output (proved below as `parse_get_cell_style`). -/
def css_pairs (w : List Char → Nat) (cell : Cell) : List (List Char × List Char) :=
  ("color".data,
    match resolved_fg cell with
    | some c => rgbVal c
    | none => "rgb(255, 255, 255)".data) ::
  ("background-color".data,
    match resolved_bg cell with
    | some c => rgbVal c
    | none =>
      if cell.modifier.reversed then "rgb(255, 255, 255)".data
      else "transparent".data) ::
  ((if cell.modifier.bold then [("font-weight".data, "bold".data)] else []) ++
   (if cell.modifier.dim then [("opacity".data, "0.5".data)] else []) ++
   (if cell.modifier.italic then [("font-style".data, "italic".data)] else []) ++
   (if cell.modifier.underlined then [("text-decoration".data, "underline".data)] else []) ++
   (if cell.modifier.hidden then [("visibility".data, "hidden".data)] else []) ++
   (if cell.modifier.crossed_out then [("text-decoration".data, "line-through".data)] else []) ++
   (if contains_braille cell then [("font-variant-numeric".data, "tabular-nums".data)] else []) ++
   [("display".data, "inline-block".data),
    ("width".data, natDigits (w cell.symbol) ++ "ch".data)])

/-! ## Well-formedness predicates -/

/-- A well-formed property name as produced by the parser: nonempty, free of
the `';'` and `':'` separators, and trimmed. -/
def CleanKey (k : List Char) : Prop :=
  k ≠ [] ∧ ';' ∉ k ∧ ':' ∉ k ∧ trimChars k = k

/-- A well-formed property value as produced by the parser: nonempty, free of
`';'`, and trimmed (it may contain `':'`). -/
def CleanVal (v : List Char) : Prop :=
  v ≠ [] ∧ ';' ∉ v ∧ trimChars v = v

/-- A well-formed `(property, value)` pair. -/
def CleanPair (p : List Char × List Char) : Prop :=
  CleanKey p.1 ∧ CleanVal p.2

instance (k : List Char) : Decidable (CleanKey k) :=
  decidable_of_iff (k ≠ [] ∧ ';' ∉ k ∧ ':' ∉ k ∧ trimChars k = k) Iff.rfl

instance (v : List Char) : Decidable (CleanVal v) :=
  decidable_of_iff (v ≠ [] ∧ ';' ∉ v ∧ trimChars v = v) Iff.rfl

instance (p : List Char × List Char) : Decidable (CleanPair p) :=
  decidable_of_iff (CleanKey p.1 ∧ CleanVal p.2) Iff.rfl

/-- No two pairs share a property name up to ASCII case. -/
def UniqueKeys (P : List (List Char × List Char)) : Prop :=
  P.Pairwise fun p q => eq_ignore_ascii_case p.1 q.1 = false

instance (P : List (List Char × List Char)) : Decidable (UniqueKeys P) := by
  unfold UniqueKeys
  infer_instance

/-- Repeatedly apply `update_css_field _ k none` for every field name of the
declaration, in order. -/
def remove_all_fields (css : List Char) : List Char :=
  ((parse_inline_style css).map Prod.fst).foldl (fun t k => update_css_field t k none) css

/-! ## Lemmas about splitting -/

theorem splitOnSemi_ne_nil (l : List Char) : splitOnSemi l ≠ [] := by
  induction l with
  | nil => simp [splitOnSemi]
  | cons c rest ih =>
    by_cases hc : c = ';'
    · simp [splitOnSemi, hc]
    · cases h : splitOnSemi rest with
      | nil => exact absurd h ih
      | cons g gs => simp [splitOnSemi, hc, h]

theorem splitOnSemi_semi_cons (rest : List Char) :
    splitOnSemi (';' :: rest) = [] :: splitOnSemi rest := by
  simp [splitOnSemi]

theorem splitOnSemi_cons_ne {c : Char} (hc : ¬c = ';') (rest : List Char) :
    splitOnSemi (c :: rest) = (splitOnSemi rest).modifyHead (c :: ·) := by
  cases h : splitOnSemi rest with
  | nil => exact absurd h (splitOnSemi_ne_nil rest)
  | cons g gs => simp [splitOnSemi, hc, h]

theorem splitOnSemi_no_semi_append {a : List Char} (h : ';' ∉ a) (rest : List Char) :
    splitOnSemi (a ++ rest) = (splitOnSemi rest).modifyHead (a ++ ·) := by
  induction a with
  | nil =>
    cases hr : splitOnSemi rest with
    | nil => exact absurd hr (splitOnSemi_ne_nil rest)
    | cons g gs => simp [hr]
  | cons c a ih =>
    have hc : ¬c = ';' := fun hx => h (hx ▸ List.mem_cons_self c a)
    have ha : ';' ∉ a := fun hx => h (List.mem_cons_of_mem c hx)
    cases hr : splitOnSemi rest with
    | nil => exact absurd hr (splitOnSemi_ne_nil rest)
    | cons g gs =>
      have h2 := ih ha
      rw [hr] at h2
      rw [List.cons_append, splitOnSemi_cons_ne hc, h2]
      simp [List.modifyHead_cons]

theorem splitOnSemi_decl {d : List Char} (h : ';' ∉ d) (rest : List Char) :
    splitOnSemi (d ++ ';' :: rest) = d :: splitOnSemi rest := by
  rw [splitOnSemi_no_semi_append h, splitOnSemi_semi_cons]
  simp

theorem mem_splitOnSemi_no_semi {l : List Char} :
    ∀ s ∈ splitOnSemi l, ';' ∉ s := by
  induction l with
  | nil => intro s hs; simp [splitOnSemi] at hs; simp [hs]
  | cons c rest ih =>
    intro s hs
    by_cases hc : c = ';'
    · rw [hc, splitOnSemi_semi_cons] at hs
      rcases List.mem_cons.mp hs with h | h
      · simp [h]
      · exact ih s h
    · cases hr : splitOnSemi rest with
      | nil => exact absurd hr (splitOnSemi_ne_nil rest)
      | cons g gs =>
        rw [splitOnSemi_cons_ne hc, hr, List.modifyHead_cons] at hs
        rcases List.mem_cons.mp hs with h | h
        · subst h
          intro hmem
          rcases List.mem_cons.mp hmem with h | h
          · exact hc h.symm
          · exact ih g (by rw [hr]; exact List.mem_cons_self g gs) h
        · exact ih s (by rw [hr]; exact List.mem_cons_of_mem g h)

theorem splitFirstColon_append {k : List Char} (h : ':' ∉ k) (r : List Char) :
    splitFirstColon (k ++ ':' :: r) = some (k, r) := by
  induction k with
  | nil => simp [splitFirstColon]
  | cons c k ih =>
    have hc : c ≠ ':' := fun hx => h (hx ▸ List.mem_cons_self c k)
    have hk : ':' ∉ k := fun hx => h (List.mem_cons_of_mem c hx)
    simp [splitFirstColon, hc, ih hk]

theorem splitFirstColon_eq_some {d a b : List Char}
    (h : splitFirstColon d = some (a, b)) : ':' ∉ a ∧ d = a ++ ':' :: b := by
  induction d generalizing a b with
  | nil => simp [splitFirstColon] at h
  | cons c rest ih =>
    by_cases hc : c = ':'
    · subst hc
      have h3 : some (([] : List Char), rest) = some (a, b) := h
      rw [Option.some.injEq, Prod.mk.injEq] at h3
      obtain ⟨ha, hb⟩ := h3
      rw [← ha, ← hb]
      simp
    · rw [splitFirstColon, if_neg hc] at h
      cases hsp : splitFirstColon rest with
      | none => rw [hsp] at h; simp at h
      | some q =>
        obtain ⟨q1, q2⟩ := q
        rw [hsp] at h
        have h3 : some (c :: q1, q2) = some (a, b) := h
        rw [Option.some.injEq, Prod.mk.injEq] at h3
        obtain ⟨ha, hb⟩ := h3
        obtain ⟨hna, hd⟩ := ih (a := q1) (b := q2) hsp
        constructor
        · intro hmem
          rw [← ha] at hmem
          rcases List.mem_cons.mp hmem with hx | hx
          · exact hc hx.symm
          · exact hna hx
        · rw [← ha, ← hb, hd]; simp

/-! ## Lemmas about trimming -/

theorem dropWhile_eq_self_of_head {p : Char → Bool} {l : List Char}
    (h : ∀ c, l.head? = some c → p c = false) : l.dropWhile p = l := by
  cases l with
  | nil => rfl
  | cons c t => simp [List.dropWhile_cons, h c rfl]

theorem dropWhile_len_eq {p : Char → Bool} {l : List Char}
    (h : (l.dropWhile p).length = l.length) : l.dropWhile p = l := by
  cases l with
  | nil => rfl
  | cons c t =>
    by_cases hp : p c = true
    · exfalso
      rw [List.dropWhile_cons, if_pos hp] at h
      have hle := (List.dropWhile_sublist (l := t) p).length_le
      simp at h
      omega
    · rw [List.dropWhile_cons, if_neg hp]

theorem head_false_of_dropWhile_eq_self {p : Char → Bool} {l : List Char}
    (h : l.dropWhile p = l) : ∀ c, l.head? = some c → p c = false := by
  cases l with
  | nil => intro c hc; simp at hc
  | cons a t =>
    intro c hc
    simp only [List.head?_cons, Option.some.injEq] at hc
    by_cases hp : p a = true
    · exfalso
      rw [List.dropWhile_cons, if_pos hp] at h
      have hlen := congrArg List.length h
      have hle := (List.dropWhile_sublist (l := t) p).length_le
      simp at hlen
      omega
    · rw [← hc]
      simpa using hp

theorem head?_dropWhile_false {p : Char → Bool} {l : List Char} {c : Char}
    (h : (l.dropWhile p).head? = some c) : p c = false := by
  induction l with
  | nil => simp at h
  | cons a t ih =>
    by_cases hp : p a = true
    · rw [List.dropWhile_cons, if_pos hp] at h
      exact ih h
    · rw [List.dropWhile_cons, if_neg hp] at h
      simp only [List.head?_cons, Option.some.injEq] at h
      subst h
      simpa using hp

theorem getLast?_dropWhile {p : Char → Bool} {l : List Char}
    (h : l.dropWhile p ≠ []) : (l.dropWhile p).getLast? = l.getLast? := by
  induction l with
  | nil => simp at h
  | cons a t ih =>
    by_cases hp : p a = true
    · rw [List.dropWhile_cons, if_pos hp] at h ⊢
      have ht : t ≠ [] := by
        intro he
        rw [he] at h
        simp at h
      cases t with
      | nil => exact absurd rfl ht
      | cons b t' => rw [ih h, List.getLast?_cons_cons]
    · rw [List.dropWhile_cons, if_neg hp]

theorem trimChars_eq_self {l : List Char}
    (h1 : ∀ c, l.head? = some c → c.isWhitespace = false)
    (h2 : ∀ c, l.getLast? = some c → c.isWhitespace = false) :
    trimChars l = l := by
  unfold trimChars
  rw [dropWhile_eq_self_of_head h1]
  rw [dropWhile_eq_self_of_head fun c hc => h2 c (by rwa [List.head?_reverse] at hc)]
  exact List.reverse_reverse l

theorem trimChars_eq_self_elim {l : List Char} (h : trimChars l = l) :
    (∀ c, l.head? = some c → c.isWhitespace = false) ∧
    (∀ c, l.getLast? = some c → c.isWhitespace = false) := by
  have hlen1 : ((l.dropWhile Char.isWhitespace).reverse.dropWhile Char.isWhitespace).length
      ≤ (l.dropWhile Char.isWhitespace).length := by
    have h0 := (List.dropWhile_sublist
      (l := (l.dropWhile Char.isWhitespace).reverse) Char.isWhitespace).length_le
    simpa using h0
  have hlen2 : (l.dropWhile Char.isWhitespace).length ≤ l.length :=
    (List.dropWhile_sublist _).length_le
  have hlen3 : ((l.dropWhile Char.isWhitespace).reverse.dropWhile Char.isWhitespace).length
      = l.length := by
    have h0 := congrArg List.length h
    simpa [trimChars] using h0
  have haeq : l.dropWhile Char.isWhitespace = l := dropWhile_len_eq (by omega)
  have h' : (l.reverse.dropWhile Char.isWhitespace).reverse = l := by
    have h2 := h
    unfold trimChars at h2
    rw [haeq] at h2
    exact h2
  have hrev : l.reverse.dropWhile Char.isWhitespace = l.reverse := by
    have h0 := congrArg List.reverse h'
    simpa using h0
  refine ⟨head_false_of_dropWhile_eq_self haeq, fun c hc => ?_⟩
  exact head_false_of_dropWhile_eq_self hrev c (by rwa [List.head?_reverse])

theorem trimChars_nil : trimChars [] = [] := rfl

theorem trimChars_ws_cons {c : Char} (hc : c.isWhitespace = true) (l : List Char) :
    trimChars (c :: l) = trimChars l := by
  simp [trimChars, List.dropWhile_cons, hc]

theorem trimChars_idem (l : List Char) : trimChars (trimChars l) = trimChars l := by
  by_cases hnil : trimChars l = []
  · rw [hnil]
    exact trimChars_nil
  · apply trimChars_eq_self
    · intro c hc
      unfold trimChars at hc
      rw [List.head?_reverse] at hc
      have hX : (l.dropWhile Char.isWhitespace).reverse.dropWhile Char.isWhitespace ≠ [] := by
        intro he
        apply hnil
        unfold trimChars
        rw [he]
        rfl
      rw [getLast?_dropWhile hX, ← List.head?_reverse, List.reverse_reverse] at hc
      exact head?_dropWhile_false (l := l) hc
    · intro c hc
      unfold trimChars at hc
      rw [← List.head?_reverse, List.reverse_reverse] at hc
      exact head?_dropWhile_false hc

theorem trimChars_subset (l : List Char) : trimChars l ⊆ l := by
  intro x hx
  unfold trimChars at hx
  rw [List.mem_reverse] at hx
  have h1 := (List.dropWhile_sublist
    (l := (l.dropWhile Char.isWhitespace).reverse) Char.isWhitespace).subset hx
  rw [List.mem_reverse] at h1
  exact (List.dropWhile_sublist _).subset h1

theorem eq_ignore_ascii_case_refl (a : List Char) :
    eq_ignore_ascii_case a a = true := by
  simp [eq_ignore_ascii_case]

theorem getLast?_append_right {l r : List Char} (hr : r ≠ []) :
    (l ++ r).getLast? = r.getLast? := by
  rw [← List.head?_reverse, List.reverse_append, ← List.head?_reverse (l := r)]
  cases hr' : r.reverse with
  | nil =>
    exfalso
    apply hr
    simpa using congrArg List.reverse hr'
  | cons a t => simp [hr']

/-! ## Lemmas about the inline-style parser -/

theorem parse_inline_style_nil : parse_inline_style [] = [] := rfl

theorem parseDecl_ws_cons {c : Char} (hc : c.isWhitespace = true) (g : List Char) :
    parseDecl (c :: g) = parseDecl g := by
  simp [parseDecl, trimChars_ws_cons hc]

theorem parse_inline_style_ws_cons {c : Char} (hc : c.isWhitespace = true)
    (t : List Char) : parse_inline_style (c :: t) = parse_inline_style t := by
  have hcs : ¬c = ';' := by
    intro he
    rw [he] at hc
    exact absurd hc (by decide)
  cases h : splitOnSemi t with
  | nil => exact absurd h (splitOnSemi_ne_nil t)
  | cons g gs =>
    unfold parse_inline_style
    rw [splitOnSemi_cons_ne hcs, h, List.modifyHead_cons, List.filterMap_cons,
      List.filterMap_cons, parseDecl_ws_cons hc]

theorem parseDecl_clean {k v : List Char} (hk : CleanKey k) (hv : CleanVal v) :
    parseDecl (k ++ ':' :: ' ' :: v) = some (k, v) := by
  obtain ⟨hk1, hk2, hk3, hk4⟩ := hk
  obtain ⟨hv1, hv2, hv3⟩ := hv
  obtain ⟨hkh, _⟩ := trimChars_eq_self_elim hk4
  obtain ⟨_, hvl⟩ := trimChars_eq_self_elim hv3
  have htrim : trimChars (k ++ ':' :: ' ' :: v) = k ++ ':' :: ' ' :: v := by
    apply trimChars_eq_self
    · intro c hc
      cases k with
      | nil => exact absurd rfl hk1
      | cons a t =>
        simp only [List.cons_append, List.head?_cons, Option.some.injEq] at hc
        rw [← hc]
        exact hkh a rfl
    · intro c hc
      rw [getLast?_append_right (by simp)] at hc
      rw [show ':' :: ' ' :: v = [':', ' '] ++ v from rfl,
        getLast?_append_right hv1] at hc
      exact hvl c hc
  have hne : k ++ ':' :: ' ' :: v ≠ [] := by
    cases k with
    | nil => exact absurd rfl hk1
    | cons a t => simp
  have htv : trimChars (' ' :: v) = v := by
    rw [trimChars_ws_cons (by decide), hv3]
  simp only [parseDecl, htrim, if_neg hne, splitFirstColon_append hk3, hk4, htv]
  simp [hk1, hv1]

theorem parse_inline_style_decl_cons {k v : List Char} (hk : CleanKey k)
    (hv : CleanVal v) (rest : List Char) :
    parse_inline_style (k ++ ':' :: ' ' :: v ++ ';' :: rest) =
      (k, v) :: parse_inline_style rest := by
  have hd : ';' ∉ k ++ ':' :: ' ' :: v := by
    intro hm
    rcases List.mem_append.mp hm with hx | hx
    · exact hk.2.1 hx
    · rcases List.mem_cons.mp hx with hy | hy
      · exact absurd hy (by decide)
      · rcases List.mem_cons.mp hy with hz | hz
        · exact absurd hz (by decide)
        · exact hv.2.1 hz
  have hassoc : k ++ ':' :: ' ' :: v ++ ';' :: rest =
      (k ++ ':' :: ' ' :: v) ++ ';' :: rest := by simp
  rw [hassoc, parse_inline_style, splitOnSemi_decl hd, List.filterMap_cons,
    parseDecl_clean hk hv]
  rfl

theorem parse_build {P : List (List Char × List Char)}
    (h : ∀ p ∈ P, CleanPair p) :
    parse_inline_style (build_inline_style P) = P := by
  induction P with
  | nil => rfl
  | cons p rest ih =>
    obtain ⟨k, v⟩ := p
    have hp := h (k, v) (List.mem_cons_self _ _)
    show parse_inline_style (k ++ ':' :: ' ' :: v ++ ';' :: build_inline_style rest) = _
    rw [parse_inline_style_decl_cons hp.1 hp.2,
      ih fun q hq => h q (List.mem_cons_of_mem _ hq)]

theorem parse_inline_style_clean (css : List Char) :
    ∀ p ∈ parse_inline_style css, CleanPair p := by
  intro p hp
  unfold parse_inline_style at hp
  rw [List.mem_filterMap] at hp
  obtain ⟨decl, hdecl, hpd⟩ := hp
  have hds : ';' ∉ decl := mem_splitOnSemi_no_semi decl hdecl
  have hdsub : trimChars decl ⊆ decl := trimChars_subset decl
  by_cases h1 : trimChars decl = []
  · simp [parseDecl, h1] at hpd
  · rw [parseDecl] at hpd
    simp only [if_neg h1] at hpd
    cases h2 : splitFirstColon (trimChars decl) with
    | none => rw [h2] at hpd; simp at hpd
    | some q =>
      obtain ⟨k0, v0⟩ := q
      rw [h2] at hpd
      obtain ⟨hcol, hdeq⟩ := splitFirstColon_eq_some h2
      by_cases h3 : trimChars k0 = [] ∨ trimChars v0 = []
      · simp only [if_pos h3] at hpd
        exact absurd hpd (by simp)
      · simp only [if_neg h3] at hpd
        push_neg at h3
        have hk0sub : k0 ⊆ decl := fun x hx =>
          hdsub (hdeq ▸ List.mem_append_left _ hx)
        have hv0sub : v0 ⊆ decl := fun x hx =>
          hdsub (hdeq ▸ List.mem_append_right _ (List.mem_cons_of_mem _ hx))
        have hp' : p = (trimChars k0, trimChars v0) := by
          have := hpd
          rw [Option.some.injEq] at this
          exact this.symm
        rw [hp']
        refine ⟨⟨h3.1, ?_, ?_, trimChars_idem k0⟩, h3.2, ?_, trimChars_idem v0⟩
        · intro hm
          exact hds (hk0sub (trimChars_subset k0 hm))
        · intro hm
          exact hcol (trimChars_subset k0 hm)
        · intro hm
          exact hds (hv0sub (trimChars_subset v0 hm))

/-! ## Lemmas about the patch engine -/

theorem mem_update_or_append_fst {q : List Char × List Char} {tgt v' : List Char}
    {P : List (List Char × List Char)} (hq : q ∈ update_or_append tgt v' P) :
    q.1 ∈ P.map Prod.fst ∨ q.1 = tgt := by
  induction P with
  | nil =>
    rw [update_or_append] at hq
    rcases List.mem_singleton.mp hq with rfl
    right
    rfl
  | cons p rest ih =>
    obtain ⟨k, vv⟩ := p
    by_cases h : eq_ignore_ascii_case k tgt = true
    · rw [update_or_append, if_pos h] at hq
      rcases List.mem_cons.mp hq with rfl | hx
      · left; simp
      · left
        simp only [List.map_cons]
        exact List.mem_cons_of_mem _ (List.mem_map_of_mem Prod.fst hx)
    · rw [update_or_append, if_neg h] at hq
      rcases List.mem_cons.mp hq with rfl | hx
      · left; simp
      · rcases ih hx with hy | hy
        · left
          simp only [List.map_cons]
          exact List.mem_cons_of_mem _ hy
        · right; exact hy

theorem update_or_append_not_found {tgt v' : List Char}
    {P : List (List Char × List Char)}
    (h : ∀ p ∈ P, eq_ignore_ascii_case p.1 tgt = false) :
    update_or_append tgt v' P = P ++ [(tgt, v')] := by
  induction P with
  | nil => rfl
  | cons p rest ih =>
    obtain ⟨k, vv⟩ := p
    have hk := h (k, vv) (List.mem_cons_self _ _)
    rw [update_or_append, if_neg (by simp [hk]),
      ih fun q hq => h q (List.mem_cons_of_mem _ hq)]
    rfl

theorem update_or_append_fst (tgt v' : List Char)
    (P : List (List Char × List Char)) :
    (update_or_append tgt v' P).map Prod.fst = P.map Prod.fst ∨
    (update_or_append tgt v' P).map Prod.fst = P.map Prod.fst ++ [tgt] := by
  induction P with
  | nil => right; rfl
  | cons p rest ih =>
    obtain ⟨k, vv⟩ := p
    by_cases h : eq_ignore_ascii_case k tgt = true
    · left
      rw [update_or_append, if_pos h]
      simp
    · rw [update_or_append, if_neg h]
      rcases ih with hx | hx
      · left; simp [hx]
      · right; simp [hx]

theorem filter_update_or_append (tgt v' : List Char)
    (P : List (List Char × List Char)) :
    (update_or_append tgt v' P).filter (fun p => !eq_ignore_ascii_case p.1 tgt) =
      P.filter fun p => !eq_ignore_ascii_case p.1 tgt := by
  induction P with
  | nil => simp [update_or_append, List.filter_cons, eq_ignore_ascii_case_refl]
  | cons p rest ih =>
    obtain ⟨k, vv⟩ := p
    by_cases h : eq_ignore_ascii_case k tgt = true
    · rw [update_or_append, if_pos h]
      simp [List.filter_cons, h]
    · rw [update_or_append, if_neg h]
      simp [List.filter_cons, h, ih]

theorem update_or_append_clean {tgt v' : List Char}
    {P : List (List Char × List Char)} (hP : ∀ p ∈ P, CleanPair p)
    (ht : CleanKey tgt) (hv : CleanVal v') :
    ∀ p ∈ update_or_append tgt v' P, CleanPair p := by
  induction P with
  | nil =>
    intro p hp
    rcases List.mem_singleton.mp hp with rfl
    exact ⟨ht, hv⟩
  | cons q rest ih =>
    obtain ⟨k, vv⟩ := q
    intro p hp
    have hq := hP (k, vv) (List.mem_cons_self _ _)
    by_cases h : eq_ignore_ascii_case k tgt = true
    · rw [update_or_append, if_pos h] at hp
      rcases List.mem_cons.mp hp with rfl | hx
      · exact ⟨hq.1, hv⟩
      · exact hP p (List.mem_cons_of_mem _ hx)
    · rw [update_or_append, if_neg h] at hp
      rcases List.mem_cons.mp hp with rfl | hx
      · exact hq
      · exact ih (fun r hr => hP r (List.mem_cons_of_mem _ hr)) p hx

theorem update_or_append_unique {tgt v' : List Char}
    {P : List (List Char × List Char)} (hU : UniqueKeys P) :
    UniqueKeys (update_or_append tgt v' P) := by
  induction P with
  | nil =>
    rw [update_or_append]
    exact List.pairwise_singleton _ _
  | cons p rest ih =>
    obtain ⟨k, vv⟩ := p
    rw [UniqueKeys, List.pairwise_cons] at hU
    obtain ⟨hhead, htail⟩ := hU
    by_cases h : eq_ignore_ascii_case k tgt = true
    · rw [update_or_append, if_pos h, UniqueKeys, List.pairwise_cons]
      exact ⟨hhead, htail⟩
    · rw [update_or_append, if_neg h, UniqueKeys, List.pairwise_cons]
      refine ⟨?_, ih htail⟩
      intro q hq
      rcases mem_update_or_append_fst hq with hx | hx
      · obtain ⟨r, hr, hre⟩ := List.mem_map.mp hx
        rw [← hre]
        exact hhead r hr
      · rw [hx]
        simpa using h

theorem parse_update_some {css field v : List Char}
    (hf : CleanKey (trimChars field)) (hv : CleanVal (trimChars v)) :
    parse_inline_style (update_css_field css field (some v)) =
      update_or_append (trimChars field) (trimChars v) (parse_inline_style css) := by
  show parse_inline_style (build_inline_style
    (update_or_append (trimChars field) (trimChars v) (parse_inline_style css))) = _
  exact parse_build (update_or_append_clean (parse_inline_style_clean css) hf hv)

theorem parse_update_none (css field : List Char) :
    parse_inline_style (update_css_field css field none) =
      (parse_inline_style css).filter
        fun p => !eq_ignore_ascii_case p.1 (trimChars field) := by
  show parse_inline_style (build_inline_style
    ((parse_inline_style css).filter
      fun p => !eq_ignore_ascii_case p.1 (trimChars field))) = _
  apply parse_build
  intro p hp
  exact parse_inline_style_clean css p (List.mem_filter.mp hp).1

theorem update_css_field_none_build {Q : List (List Char × List Char)}
    (hQ : ∀ p ∈ Q, CleanPair p) (k : List Char) :
    update_css_field (build_inline_style Q) k none =
      build_inline_style (Q.filter fun p => !eq_ignore_ascii_case p.1 (trimChars k)) := by
  unfold update_css_field
  rw [parse_build hQ]

theorem foldl_remove (ks : List (List Char)) (Q : List (List Char × List Char))
    (hQ : ∀ p ∈ Q, CleanPair p) :
    ks.foldl (fun t k => update_css_field t k none) (build_inline_style Q) =
      build_inline_style (Q.filter fun p =>
        ks.all fun k => !eq_ignore_ascii_case p.1 (trimChars k)) := by
  induction ks generalizing Q with
  | nil => simp
  | cons k ks ih =>
    rw [List.foldl_cons, update_css_field_none_build hQ k,
      ih _ (fun p hp => hQ p (List.mem_filter.mp hp).1), List.filter_filter]
    congr 1
    apply List.filter_congr
    intro p _
    rw [List.all_cons, Bool.and_comm]

theorem remove_all_fields_build {P : List (List Char × List Char)}
    (hP : ∀ p ∈ P, CleanPair p) :
    remove_all_fields (build_inline_style P) = [] := by
  unfold remove_all_fields
  rw [parse_build hP, foldl_remove (P.map Prod.fst) P hP]
  have hfil : P.filter (fun p => (P.map Prod.fst).all
      fun k => !eq_ignore_ascii_case p.1 (trimChars k)) = [] := by
    rw [List.filter_eq_nil_iff]
    intro p hp hpred
    rw [List.all_eq_true] at hpred
    have h2 := hpred p.1 (List.mem_map_of_mem Prod.fst hp)
    rw [(hP p hp).1.2.2.2, eq_ignore_ascii_case_refl] at h2
    simp at h2
  rw [hfil]
  rfl

/-! ## Lemmas about decimal digits and composed values -/

theorem digitChar_mem {m : Nat} (h : m < 10) :
    Nat.digitChar m ∈ ['0', '1', '2', '3', '4', '5', '6', '7', '8', '9'] := by
  interval_cases m <;> decide

theorem natDigitsCore_mem :
    ∀ (fuel n : Nat), ∀ c ∈ natDigitsCore fuel n,
      c ∈ ['0', '1', '2', '3', '4', '5', '6', '7', '8', '9'] := by
  intro fuel
  induction fuel with
  | zero => intro n c hc; simp [natDigitsCore] at hc
  | succ fuel ih =>
    intro n c hc
    simp only [natDigitsCore] at hc
    by_cases h : n < 10
    · rw [if_pos h] at hc
      rcases List.mem_singleton.mp hc with rfl
      exact digitChar_mem h
    · rw [if_neg h] at hc
      rcases List.mem_append.mp hc with hx | hx
      · exact ih _ c hx
      · rcases List.mem_singleton.mp hx with rfl
        exact digitChar_mem (Nat.mod_lt _ (by norm_num))

theorem natDigits_mem (n : Nat) :
    ∀ c ∈ natDigits n, c ∈ ['0', '1', '2', '3', '4', '5', '6', '7', '8', '9'] :=
  natDigitsCore_mem (n + 1) n

theorem digit_char_props {c : Char}
    (h : c ∈ ['0', '1', '2', '3', '4', '5', '6', '7', '8', '9']) :
    c ≠ ';' ∧ c ≠ ':' ∧ c.isWhitespace = false := by
  fin_cases h <;> exact ⟨by decide, by decide, by decide⟩

theorem natDigits_ne_nil (n : Nat) : natDigits n ≠ [] := by
  rw [natDigits]
  simp only [natDigitsCore]
  by_cases h : n < 10
  · simp [h]
  · simp [h]

theorem cleanVal_rgbVal (c : Nat × Nat × Nat) : CleanVal (rgbVal c) := by
  have hsh : rgbVal c = 'r' :: ("gb(".data ++ (natDigits c.1 ++ (", ".data ++
      (natDigits c.2.1 ++ (", ".data ++ (natDigits c.2.2 ++ [')'])))))) := by
    simp only [rgbVal, List.append_assoc]
    rfl
  refine ⟨?_, ?_, trimChars_eq_self ?_ ?_⟩
  · rw [hsh]; simp
  · intro hm
    have h9 : (';' : Char) ∈ "rgb(".data ∨ ';' ∈ natDigits c.1 ∨ ';' ∈ ", ".data ∨
        ';' ∈ natDigits c.2.1 ∨ ';' ∈ ", ".data ∨ ';' ∈ natDigits c.2.2 ∨
        ';' ∈ [')'] := by
      rw [rgbVal] at hm
      simpa [List.mem_append, or_assoc] using hm
    rcases h9 with h | h | h | h | h | h | h
    · exact absurd h (by decide)
    · exact absurd (natDigits_mem _ _ h) (by decide)
    · exact absurd h (by decide)
    · exact absurd (natDigits_mem _ _ h) (by decide)
    · exact absurd h (by decide)
    · exact absurd (natDigits_mem _ _ h) (by decide)
    · exact absurd h (by decide)
  · intro x hx
    rw [hsh] at hx
    simp only [List.head?_cons, Option.some.injEq] at hx
    rw [← hx]
    decide
  · intro x hx
    rw [show rgbVal c = ("rgb(".data ++ natDigits c.1 ++ ", ".data ++
        natDigits c.2.1 ++ ", ".data ++ natDigits c.2.2) ++ [')'] from by
      simp [rgbVal]] at hx
    rw [List.getLast?_concat] at hx
    rw [Option.some.injEq] at hx
    rw [← hx]
    decide

theorem cleanVal_width (n : Nat) : CleanVal (natDigits n ++ "ch".data) := by
  refine ⟨?_, ?_, trimChars_eq_self ?_ ?_⟩
  · intro h
    exact natDigits_ne_nil n (List.append_eq_nil.mp h).1
  · intro hm
    rcases List.mem_append.mp hm with h | h
    · exact absurd (natDigits_mem _ _ h) (by decide)
    · exact absurd h (by decide)
  · intro x hx
    cases hd : natDigits n with
    | nil => exact absurd hd (natDigits_ne_nil n)
    | cons a t =>
      rw [hd, List.cons_append, List.head?_cons, Option.some.injEq] at hx
      rw [← hx]
      have ha : a ∈ natDigits n := by rw [hd]; exact List.mem_cons_self a t
      exact (digit_char_props (natDigits_mem n a ha)).2.2
  · intro x hx
    rw [getLast?_append_right (by decide)] at hx
    have : x = 'h' := by
      rw [show ("ch".data.getLast? = some 'h') from rfl] at hx
      rw [Option.some.injEq] at hx
      exact hx.symm
    rw [this]
    decide

/-! ## Parsing the composed style -/

theorem parse_decl_chunk {k v : List Char} (hk : CleanKey k) (hv : CleanVal v)
    (rest : List Char) :
    parse_inline_style ((k ++ ':' :: ' ' :: v ++ [';']) ++ rest) =
      (k, v) :: parse_inline_style rest := by
  have hassoc : (k ++ ':' :: ' ' :: v ++ [';']) ++ rest =
      k ++ ':' :: ' ' :: v ++ ';' :: rest := by simp
  rw [hassoc, parse_inline_style_decl_cons hk hv]

theorem parse_opt_chunk {b : Bool} {k v : List Char} (hk : CleanKey k)
    (hv : CleanVal v) (rest : List Char) :
    parse_inline_style
      ((if b then (k ++ ':' :: ' ' :: v ++ [';']) ++ [' '] else []) ++ rest) =
      (if b then [(k, v)] else []) ++ parse_inline_style rest := by
  cases b with
  | false => simp
  | true =>
    simp only [if_true]
    have hassoc : ((k ++ ':' :: ' ' :: v ++ [';']) ++ [' ']) ++ rest =
        (k ++ ':' :: ' ' :: v ++ [';']) ++ (' ' :: rest) := by simp
    rw [hassoc, parse_decl_chunk hk hv, parse_inline_style_ws_cons (by decide)]
    rfl

theorem chunk_bold : "font-weight: bold; ".data =
    ("font-weight".data ++ ':' :: ' ' :: "bold".data ++ [';']) ++ [' '] := rfl

theorem chunk_dim : "opacity: 0.5; ".data =
    ("opacity".data ++ ':' :: ' ' :: "0.5".data ++ [';']) ++ [' '] := rfl

theorem chunk_italic : "font-style: italic; ".data =
    ("font-style".data ++ ':' :: ' ' :: "italic".data ++ [';']) ++ [' '] := rfl

theorem chunk_underline : "text-decoration: underline; ".data =
    ("text-decoration".data ++ ':' :: ' ' :: "underline".data ++ [';']) ++ [' '] := rfl

theorem chunk_hidden : "visibility: hidden; ".data =
    ("visibility".data ++ ':' :: ' ' :: "hidden".data ++ [';']) ++ [' '] := rfl

theorem chunk_crossed : "text-decoration: line-through; ".data =
    ("text-decoration".data ++ ':' :: ' ' :: "line-through".data ++ [';']) ++ [' '] := rfl

theorem chunk_braille : "font-variant-numeric: tabular-nums; ".data =
    ("font-variant-numeric".data ++ ':' :: ' ' :: "tabular-nums".data ++ [';']) ++ [' '] := rfl

theorem sizing_shape (n : Nat) :
    "display: inline-block; width: ".data ++ natDigits n ++ "ch;".data =
      "display".data ++ ':' :: ' ' :: "inline-block".data ++ ';' ::
        (' ' :: ("width".data ++ ':' :: ' ' :: (natDigits n ++ "ch".data) ++
          ';' :: [])) := by
  rw [show "display: inline-block; width: ".data =
      "display".data ++ ':' :: ' ' :: "inline-block".data ++ ';' :: ' ' ::
        "width".data ++ [':', ' '] from rfl,
    show "ch;".data = "ch".data ++ [';'] from rfl]
  simp

theorem parse_sizing (n : Nat) :
    parse_inline_style
      ("display: inline-block; width: ".data ++ natDigits n ++ "ch;".data) =
      [("display".data, "inline-block".data),
       ("width".data, natDigits n ++ "ch".data)] := by
  rw [sizing_shape,
    parse_inline_style_decl_cons (k := "display".data) (v := "inline-block".data)
      (by decide) (by decide),
    parse_inline_style_ws_cons (c := ' ') (by decide),
    parse_inline_style_decl_cons (k := "width".data) (v := natDigits n ++ "ch".data)
      (by decide) (cleanVal_width n),
    parse_inline_style_nil]

theorem fg_style_some_shape (c : Nat × Nat × Nat) :
    fg_style (some c) = "color".data ++ ':' :: ' ' :: rgbVal c ++ [';'] := by
  show "color: ".data ++ rgbVal c ++ [';'] = _
  rw [show "color: ".data = "color".data ++ [':', ' '] from rfl]
  simp

theorem fg_style_none_shape :
    fg_style none = "color".data ++ ':' :: ' ' :: "rgb(255, 255, 255)".data ++ [';'] := rfl

theorem bg_style_some_shape (r : Bool) (c : Nat × Nat × Nat) :
    bg_style r (some c) =
      "background-color".data ++ ':' :: ' ' :: rgbVal c ++ [';'] := by
  show "background-color: ".data ++ rgbVal c ++ [';'] = _
  rw [show "background-color: ".data = "background-color".data ++ [':', ' '] from rfl]
  simp

theorem bg_style_none_rev_shape :
    bg_style true none =
      "background-color".data ++ ':' :: ' ' :: "rgb(255, 255, 255)".data ++ [';'] := rfl

theorem bg_style_none_norm_shape :
    bg_style false none =
      "background-color".data ++ ':' :: ' ' :: "transparent".data ++ [';'] := rfl

theorem parse_tail_mods (m : Modifier) (br : Bool) (n : Nat) :
    parse_inline_style (modifier_style m ++ ' ' ::
      ((if br then "font-variant-numeric: tabular-nums; ".data else []) ++
       ' ' :: ("display: inline-block; width: ".data ++ natDigits n ++ "ch;".data))) =
    (if m.bold then [("font-weight".data, "bold".data)] else []) ++
    (if m.dim then [("opacity".data, "0.5".data)] else []) ++
    (if m.italic then [("font-style".data, "italic".data)] else []) ++
    (if m.underlined then [("text-decoration".data, "underline".data)] else []) ++
    (if m.hidden then [("visibility".data, "hidden".data)] else []) ++
    (if m.crossed_out then [("text-decoration".data, "line-through".data)] else []) ++
    (if br then [("font-variant-numeric".data, "tabular-nums".data)] else []) ++
    [("display".data, "inline-block".data),
     ("width".data, natDigits n ++ "ch".data)] := by
  have htext : modifier_style m ++ ' ' ::
      ((if br then "font-variant-numeric: tabular-nums; ".data else []) ++
       ' ' :: ("display: inline-block; width: ".data ++ natDigits n ++ "ch;".data)) =
      (if m.bold then
        ("font-weight".data ++ ':' :: ' ' :: "bold".data ++ [';']) ++ [' ']
      else []) ++
      ((if m.dim then
        ("opacity".data ++ ':' :: ' ' :: "0.5".data ++ [';']) ++ [' ']
      else []) ++
      ((if m.italic then
        ("font-style".data ++ ':' :: ' ' :: "italic".data ++ [';']) ++ [' ']
      else []) ++
      ((if m.underlined then
        ("text-decoration".data ++ ':' :: ' ' :: "underline".data ++ [';']) ++ [' ']
      else []) ++
      ((if m.hidden then
        ("visibility".data ++ ':' :: ' ' :: "hidden".data ++ [';']) ++ [' ']
      else []) ++
      ((if m.crossed_out then
        ("text-decoration".data ++ ':' :: ' ' :: "line-through".data ++ [';']) ++ [' ']
      else []) ++
      ' ' :: ((if br then
        ("font-variant-numeric".data ++ ':' :: ' ' :: "tabular-nums".data ++ [';']) ++ [' ']
      else []) ++
      ' ' :: ("display: inline-block; width: ".data ++ natDigits n ++ "ch;".data))))))) := by
    simp [modifier_style]
  rw [htext]
  rw [parse_opt_chunk (k := "font-weight".data) (v := "bold".data)
    (by decide) (by decide)]
  rw [parse_opt_chunk (k := "opacity".data) (v := "0.5".data)
    (by decide) (by decide)]
  rw [parse_opt_chunk (k := "font-style".data) (v := "italic".data)
    (by decide) (by decide)]
  rw [parse_opt_chunk (k := "text-decoration".data) (v := "underline".data)
    (by decide) (by decide)]
  rw [parse_opt_chunk (k := "visibility".data) (v := "hidden".data)
    (by decide) (by decide)]
  rw [parse_opt_chunk (k := "text-decoration".data) (v := "line-through".data)
    (by decide) (by decide)]
  rw [parse_inline_style_ws_cons (c := ' ') (by decide)]
  rw [parse_opt_chunk (k := "font-variant-numeric".data) (v := "tabular-nums".data)
    (by decide) (by decide)]
  rw [parse_inline_style_ws_cons (c := ' ') (by decide), parse_sizing]
  simp [List.append_assoc]

theorem parse_get_cell_style (w : List Char → Nat) (cell : Cell) :
    parse_inline_style (get_cell_style_as_css w cell) = css_pairs w cell := by
  cases hfg : resolved_fg cell with
  | some c =>
    cases hbg : resolved_bg cell with
    | some c2 =>
      have htext : get_cell_style_as_css w cell =
          ("color".data ++ ':' :: ' ' :: rgbVal c ++ [';']) ++
            (' ' :: (("background-color".data ++ ':' :: ' ' :: rgbVal c2 ++ [';']) ++
              (' ' :: (modifier_style cell.modifier ++ ' ' ::
                ((if contains_braille cell then
                    "font-variant-numeric: tabular-nums; ".data else []) ++
                 ' ' :: ("display: inline-block; width: ".data ++
                   natDigits (w cell.symbol) ++ "ch;".data)))))) := by
        simp [get_cell_style_as_css, hfg, hbg, fg_style, bg_style, rgbVal]
      rw [htext,
        parse_decl_chunk (k := "color".data) (v := rgbVal c)
          (by decide) (cleanVal_rgbVal c),
        parse_inline_style_ws_cons (c := ' ') (by decide),
        parse_decl_chunk (k := "background-color".data) (v := rgbVal c2)
          (by decide) (cleanVal_rgbVal c2),
        parse_inline_style_ws_cons (c := ' ') (by decide),
        parse_tail_mods]
      simp [css_pairs, hfg, hbg]
    | none =>
      cases hrev : cell.modifier.reversed with
      | true =>
        have htext : get_cell_style_as_css w cell =
            ("color".data ++ ':' :: ' ' :: rgbVal c ++ [';']) ++
              (' ' :: (("background-color".data ++ ':' :: ' ' ::
                  "rgb(255, 255, 255)".data ++ [';']) ++
                (' ' :: (modifier_style cell.modifier ++ ' ' ::
                  ((if contains_braille cell then
                      "font-variant-numeric: tabular-nums; ".data else []) ++
                   ' ' :: ("display: inline-block; width: ".data ++
                     natDigits (w cell.symbol) ++ "ch;".data)))))) := by
          simp [get_cell_style_as_css, hfg, hbg, hrev, fg_style, bg_style, rgbVal]
        rw [htext,
          parse_decl_chunk (k := "color".data) (v := rgbVal c)
            (by decide) (cleanVal_rgbVal c),
          parse_inline_style_ws_cons (c := ' ') (by decide),
          parse_decl_chunk (k := "background-color".data)
            (v := "rgb(255, 255, 255)".data) (by decide) (by decide),
          parse_inline_style_ws_cons (c := ' ') (by decide),
          parse_tail_mods]
        simp [css_pairs, hfg, hbg, hrev]
      | false =>
        have htext : get_cell_style_as_css w cell =
            ("color".data ++ ':' :: ' ' :: rgbVal c ++ [';']) ++
              (' ' :: (("background-color".data ++ ':' :: ' ' ::
                  "transparent".data ++ [';']) ++
                (' ' :: (modifier_style cell.modifier ++ ' ' ::
                  ((if contains_braille cell then
                      "font-variant-numeric: tabular-nums; ".data else []) ++
                   ' ' :: ("display: inline-block; width: ".data ++
                     natDigits (w cell.symbol) ++ "ch;".data)))))) := by
          simp [get_cell_style_as_css, hfg, hbg, hrev, fg_style, bg_style, rgbVal]
        rw [htext,
          parse_decl_chunk (k := "color".data) (v := rgbVal c)
            (by decide) (cleanVal_rgbVal c),
          parse_inline_style_ws_cons (c := ' ') (by decide),
          parse_decl_chunk (k := "background-color".data)
            (v := "transparent".data) (by decide) (by decide),
          parse_inline_style_ws_cons (c := ' ') (by decide),
          parse_tail_mods]
        simp [css_pairs, hfg, hbg, hrev]
  | none =>
    cases hbg : resolved_bg cell with
    | some c2 =>
      have htext : get_cell_style_as_css w cell =
          ("color".data ++ ':' :: ' ' :: "rgb(255, 255, 255)".data ++ [';']) ++
            (' ' :: (("background-color".data ++ ':' :: ' ' :: rgbVal c2 ++ [';']) ++
              (' ' :: (modifier_style cell.modifier ++ ' ' ::
                ((if contains_braille cell then
                    "font-variant-numeric: tabular-nums; ".data else []) ++
                 ' ' :: ("display: inline-block; width: ".data ++
                   natDigits (w cell.symbol) ++ "ch;".data)))))) := by
        simp [get_cell_style_as_css, hfg, hbg, fg_style, bg_style, rgbVal]
      rw [htext,
        parse_decl_chunk (k := "color".data) (v := "rgb(255, 255, 255)".data)
          (by decide) (by decide),
        parse_inline_style_ws_cons (c := ' ') (by decide),
        parse_decl_chunk (k := "background-color".data) (v := rgbVal c2)
          (by decide) (cleanVal_rgbVal c2),
        parse_inline_style_ws_cons (c := ' ') (by decide),
        parse_tail_mods]
      simp [css_pairs, hfg, hbg]
    | none =>
      cases hrev : cell.modifier.reversed with
      | true =>
        have htext : get_cell_style_as_css w cell =
            ("color".data ++ ':' :: ' ' :: "rgb(255, 255, 255)".data ++ [';']) ++
              (' ' :: (("background-color".data ++ ':' :: ' ' ::
                  "rgb(255, 255, 255)".data ++ [';']) ++
                (' ' :: (modifier_style cell.modifier ++ ' ' ::
                  ((if contains_braille cell then
                      "font-variant-numeric: tabular-nums; ".data else []) ++
                   ' ' :: ("display: inline-block; width: ".data ++
                     natDigits (w cell.symbol) ++ "ch;".data)))))) := by
          simp [get_cell_style_as_css, hfg, hbg, hrev, fg_style, bg_style]
        rw [htext,
          parse_decl_chunk (k := "color".data) (v := "rgb(255, 255, 255)".data)
            (by decide) (by decide),
          parse_inline_style_ws_cons (c := ' ') (by decide),
          parse_decl_chunk (k := "background-color".data)
            (v := "rgb(255, 255, 255)".data) (by decide) (by decide),
          parse_inline_style_ws_cons (c := ' ') (by decide),
          parse_tail_mods]
        simp [css_pairs, hfg, hbg, hrev]
      | false =>
        have htext : get_cell_style_as_css w cell =
            ("color".data ++ ':' :: ' ' :: "rgb(255, 255, 255)".data ++ [';']) ++
              (' ' :: (("background-color".data ++ ':' :: ' ' ::
                  "transparent".data ++ [';']) ++
                (' ' :: (modifier_style cell.modifier ++ ' ' ::
                  ((if contains_braille cell then
                      "font-variant-numeric: tabular-nums; ".data else []) ++
                   ' ' :: ("display: inline-block; width: ".data ++
                     natDigits (w cell.symbol) ++ "ch;".data)))))) := by
          simp [get_cell_style_as_css, hfg, hbg, hrev, fg_style, bg_style]
        rw [htext,
          parse_decl_chunk (k := "color".data) (v := "rgb(255, 255, 255)".data)
            (by decide) (by decide),
          parse_inline_style_ws_cons (c := ' ') (by decide),
          parse_decl_chunk (k := "background-color".data)
            (v := "transparent".data) (by decide) (by decide),
          parse_inline_style_ws_cons (c := ' ') (by decide),
          parse_tail_mods]
        simp [css_pairs, hfg, hbg, hrev]

/-! ## Helper lemmas for the claims -/

theorem mem_ite_nil {α : Type} {P : Prop} [Decidable P] {a : α} {l : List α} :
    (a ∈ if P then l else []) ↔ P ∧ a ∈ l := by
  by_cases h : P <;> simp [h]

theorem uniqueKeys_of_map {P : List (List Char × List Char)}
    {ks : List (List Char)} (hmap : P.map Prod.fst = ks)
    (h : ks.Pairwise fun a b => eq_ignore_ascii_case a b = false) :
    UniqueKeys P := by
  subst hmap
  exact List.pairwise_map.mp h

theorem css_pairs_keys (w : List Char → Nat) (cell : Cell) :
    (css_pairs w cell).map Prod.fst =
      "color".data :: "background-color".data ::
      ((if cell.modifier.bold then ["font-weight".data] else []) ++
       (if cell.modifier.dim then ["opacity".data] else []) ++
       (if cell.modifier.italic then ["font-style".data] else []) ++
       (if cell.modifier.underlined then ["text-decoration".data] else []) ++
       (if cell.modifier.hidden then ["visibility".data] else []) ++
       (if cell.modifier.crossed_out then ["text-decoration".data] else []) ++
       (if contains_braille cell then ["font-variant-numeric".data] else []) ++
       ["display".data, "width".data]) := by
  simp [css_pairs, apply_ite (List.map (Prod.fst (α := List Char) (β := List Char)))]

theorem update_or_append_found_fst {tgt v' : List Char}
    {P : List (List Char × List Char)}
    (h : ∃ p ∈ P, eq_ignore_ascii_case p.1 tgt = true) :
    (update_or_append tgt v' P).map Prod.fst = P.map Prod.fst := by
  induction P with
  | nil =>
    obtain ⟨p, hp, _⟩ := h
    simp at hp
  | cons q rest ih =>
    obtain ⟨k, vv⟩ := q
    by_cases hq : eq_ignore_ascii_case k tgt = true
    · rw [update_or_append, if_pos hq]
      simp
    · rw [update_or_append, if_neg hq]
      obtain ⟨p, hp, hpe⟩ := h
      rcases List.mem_cons.mp hp with rfl | hx
      · exact absurd hpe hq
      · simp [ih ⟨p, hx, hpe⟩]

/-! ## Claims -/

/-- C5: property-name matching in `update_css_field` is case-insensitive —
updating `"COLOR: red;"` at field `"color"` with value `"blue"` replaces the
existing entry in place (keeping its spelling), yielding exactly one color
entry valued `blue` and appending no second entry. -/
theorem c5_case_insensitive_update :
    parse_inline_style (update_css_field "COLOR: red;".data "color".data
      (some "blue".data)) = [("COLOR".data, "blue".data)] := by decide

/-- C6: serialising a declaration and removing each of its fields in turn via
`update_css_field _ _ none` yields the empty style text, and
`set_or_remove_style_attribute` then removes the `style` attribute entirely
(`none`) rather than setting an empty string. -/
theorem c6_remove_all_yields_empty (P : List (List Char × List Char))
    (hP : ∀ p ∈ P, CleanPair p) :
    remove_all_fields (build_inline_style P) = [] ∧
    set_or_remove_style_attribute (remove_all_fields (build_inline_style P)) =
      none := by
  have h := remove_all_fields_build hP
  exact ⟨h, by rw [h]; rfl⟩

theorem c6_remove_all_yields_empty_witness :
    (∀ p ∈ [("color".data, "red".data), ("width".data, "2ch".data)],
      CleanPair p) ∧
    remove_all_fields (build_inline_style
      [("color".data, "red".data), ("width".data, "2ch".data)]) = [] ∧
    set_or_remove_style_attribute (remove_all_fields (build_inline_style
      [("color".data, "red".data), ("width".data, "2ch".data)])) = none :=
  ⟨by decide,
   (c6_remove_all_yields_empty _ (by decide)).1,
   (c6_remove_all_yields_empty _ (by decide)).2⟩

/-- C7 counterexample: `get_raw_screen_size` does not fall back on a failed
geometry query — with no window available it fails (the `unwrap` panics,
modelled as `none`) instead of returning a default size. -/
theorem c7_geometry_fallback_counterexample :
    get_raw_screen_size none = none ∧
    get_raw_screen_size none ≠ some (120, 120) := by decide

/-- C7 amended: the window-geometry path (`get_raw_window_size`) returns the
fixed default `(120, 120)` whenever the query chain fails; the screen-geometry
path (`get_raw_screen_size`) instead propagates the failure (panics). -/
theorem c7_window_size_fallback (q : Option (Option Nat × Option Nat))
    (hfail : (q.bind fun s => (js_val_to_int s.1).bind fun w =>
      (js_val_to_int s.2).map fun h => (w, h)) = none) :
    get_raw_window_size q = (120, 120) := by
  rw [get_raw_window_size, hfail]
  rfl

theorem c7_window_size_fallback_witness :
    (((none : Option (Option Nat × Option Nat)).bind fun s =>
      (js_val_to_int s.1).bind fun w =>
        (js_val_to_int s.2).map fun h => (w, h)) = none) ∧
    get_raw_window_size none = (120, 120) :=
  ⟨rfl, c7_window_size_fallback none rfl⟩

/-- C8 counterexample: the `as u16` cast in `get_sized_buffer_from_canvas`
truncates, so a surface 65536 pixels wide yields grid width `0`, not
`65536 / 10`. -/
theorem c8_surface_grid_counterexample :
    surface_grid_size 65536 190 ≠ (65536 / 10, 190 / 19) ∧
    surface_grid_size 65536 190 = (0, 10) := by decide

/-- C8 amended: for surface pixel sizes below 2^16 (the `u16` range), the
surface grid is `(w / 10, h / 19)` with truncating division, and the buffer
allocated by `get_sized_buffer_from_canvas` has exactly those dimensions. -/
theorem c8_surface_grid_size (wpx hpx : Nat) (hw : wpx < 65536)
    (hh : hpx < 65536) :
    surface_grid_size wpx hpx = (wpx / 10, hpx / 19) ∧
    (get_sized_buffer_from_canvas wpx hpx).length = hpx / 19 ∧
    ∀ row ∈ get_sized_buffer_from_canvas wpx hpx, row.length = wpx / 10 := by
  have h1 : wpx % 65536 = wpx := Nat.mod_eq_of_lt hw
  have h2 : hpx % 65536 = hpx := Nat.mod_eq_of_lt hh
  refine ⟨by rw [surface_grid_size, h1, h2], ?_, ?_⟩
  · simp [get_sized_buffer_from_canvas, h2]
  · intro row hr
    simp only [get_sized_buffer_from_canvas] at hr
    rw [List.eq_of_mem_replicate hr]
    simp [h1]

theorem c8_surface_grid_size_witness :
    (1000 < 65536 ∧ 190 < 65536) ∧ surface_grid_size 1000 190 = (100, 10) :=
  ⟨⟨by decide, by decide⟩,
   (c8_surface_grid_size 1000 190 (by decide) (by decide)).1⟩

/-- C10: `create_anchor` reads `cells[0]` unconditionally for the span's
style: on a non-empty slice it returns the anchor whose href is the
concatenation of all symbols and whose style is the first cell's composed
style, and on the empty slice the indexing panics (`none`). -/
theorem c10_create_anchor_first_cell (w : List Char → Nat) :
    create_anchor w [] = none ∧
    ∀ (c : Cell) (cs : List Cell),
      create_anchor w (c :: cs) =
        some ((List.map Cell.symbol (c :: cs)).flatten,
          get_cell_style_as_css w c) := by
  exact ⟨rfl, fun c cs => rfl⟩

/-- C1 counterexample: for a reversed cell whose foreground does not resolve
(fg unset), the composed style is NOT the style of the color-swapped,
non-reversed cell — the reversed composition falls back to an opaque white
background, the swapped one to transparent. -/
theorem c1_reversed_swap_counterexample :
    get_cell_style_as_css (fun _ => 1)
        ⟨"x".data, Color.reset, Color.reset,
          ⟨false, false, false, false, false, false, true⟩⟩ ≠
      get_cell_style_as_css (fun _ => 1)
        ⟨"x".data, Color.reset, Color.reset,
          ⟨false, false, false, false, false, false, false⟩⟩ := by decide

/-- C1 amended: for every reversed cell whose foreground resolves to an RGB
value, composing the cell equals composing the cell with foreground and
background swapped and the REVERSED modifier cleared.  (When the foreground
does not resolve, the two differ in the background fallback.) -/
theorem c1_reversed_swap_amended (w : List Char → Nat) (cell : Cell)
    (r : Nat × Nat × Nat) (hrev : cell.modifier.reversed = true)
    (hfg : ansi_to_rgb cell.fg = some r) :
    get_cell_style_as_css w cell =
      get_cell_style_as_css w
        ⟨cell.symbol, cell.bg, cell.fg,
          ⟨cell.modifier.bold, cell.modifier.dim, cell.modifier.italic,
           cell.modifier.underlined, cell.modifier.hidden,
           cell.modifier.crossed_out, false⟩⟩ := by
  obtain ⟨sym, cfg, cbg, ⟨b1, b2, b3, b4, b5, b6, b7⟩⟩ := cell
  simp only [Modifier.reversed] at hrev
  subst hrev
  simp only [Cell.fg] at hfg
  simp [get_cell_style_as_css, resolved_fg, resolved_bg, hfg, bg_style,
    modifier_style, contains_braille]

theorem c1_reversed_swap_amended_witness :
    ((⟨"x".data, Color.rgb 1 2 3, Color.reset,
        ⟨false, false, false, false, false, false, true⟩⟩ :
        Cell).modifier.reversed = true ∧
     ansi_to_rgb (⟨"x".data, Color.rgb 1 2 3, Color.reset,
        ⟨false, false, false, false, false, false, true⟩⟩ : Cell).fg =
       some (1, 2, 3)) ∧
    get_cell_style_as_css (fun _ => 1)
        ⟨"x".data, Color.rgb 1 2 3, Color.reset,
          ⟨false, false, false, false, false, false, true⟩⟩ =
      get_cell_style_as_css (fun _ => 1)
        ⟨"x".data, Color.reset, Color.rgb 1 2 3,
          ⟨false, false, false, false, false, false, false⟩⟩ :=
  ⟨⟨rfl, rfl⟩,
   c1_reversed_swap_amended (fun _ => 1)
     ⟨"x".data, Color.rgb 1 2 3, Color.reset,
       ⟨false, false, false, false, false, false, true⟩⟩ (1, 2, 3) rfl rfl⟩

/-- C2: when the resolved (post-swap) foreground has no RGB value the composed
declaration's `color` property is opaque white `rgb(255, 255, 255)`; when the
resolved background has no RGB value the `background-color` property is opaque
white for a reversed cell and `transparent` otherwise. -/
theorem c2_unresolved_color_fallbacks (w : List Char → Nat) (cell : Cell) :
    (resolved_fg cell = none →
      (parse_inline_style (get_cell_style_as_css w cell)).find?
          (fun p => eq_ignore_ascii_case p.1 "color".data) =
        some ("color".data, "rgb(255, 255, 255)".data)) ∧
    (resolved_bg cell = none →
      (parse_inline_style (get_cell_style_as_css w cell)).find?
          (fun p => eq_ignore_ascii_case p.1 "background-color".data) =
        some ("background-color".data,
          if cell.modifier.reversed then "rgb(255, 255, 255)".data
          else "transparent".data)) := by
  constructor
  · intro h
    rw [parse_get_cell_style, css_pairs, h]
    rw [List.find?_cons_of_pos _ (by decide)]
  · intro h
    rw [parse_get_cell_style, css_pairs, h]
    rw [List.find?_cons_of_neg _ (by
      show ¬eq_ignore_ascii_case "color".data "background-color".data = true
      decide)]
    rw [List.find?_cons_of_pos _ (by
      show eq_ignore_ascii_case "background-color".data
        "background-color".data = true
      decide)]

theorem c2_unresolved_color_fallbacks_witness :
    (resolved_fg ⟨"A".data, Color.reset, Color.reset,
        ⟨false, false, false, false, false, false, false⟩⟩ = none ∧
     resolved_bg ⟨"A".data, Color.reset, Color.reset,
        ⟨false, false, false, false, false, false, false⟩⟩ = none) ∧
    (parse_inline_style (get_cell_style_as_css (fun _ => 1)
        ⟨"A".data, Color.reset, Color.reset,
          ⟨false, false, false, false, false, false, false⟩⟩)).find?
        (fun p => eq_ignore_ascii_case p.1 "color".data) =
      some ("color".data, "rgb(255, 255, 255)".data) ∧
    (parse_inline_style (get_cell_style_as_css (fun _ => 1)
        ⟨"A".data, Color.reset, Color.reset,
          ⟨false, false, false, false, false, false, false⟩⟩)).find?
        (fun p => eq_ignore_ascii_case p.1 "background-color".data) =
      some ("background-color".data, "transparent".data) :=
  ⟨⟨by decide, by decide⟩,
   (c2_unresolved_color_fallbacks (fun _ => 1) _).1 (by decide),
   (c2_unresolved_color_fallbacks (fun _ => 1) _).2 (by decide)⟩

/-- C3 counterexample: a cell with both UNDERLINED and CROSSED_OUT composes a
declaration with two `text-decoration` entries, violating case-insensitive
name uniqueness. -/
theorem c3_unique_names_counterexample :
    ¬UniqueKeys (parse_inline_style (get_cell_style_as_css (fun _ => 1)
      ⟨"x".data, Color.reset, Color.reset,
        ⟨false, false, false, true, false, true, false⟩⟩)) := by decide

/-- C3 amended: every composed declaration has pairwise case-insensitively
distinct property names provided the cell does not combine UNDERLINED with
CROSSED_OUT (that combination emits `text-decoration` twice); and
`update_css_field` preserves name uniqueness for any removal, and for any
set/update whose field name and value are well-formed tokens. -/
theorem c3_unique_names_amended :
    (∀ (w : List Char → Nat) (cell : Cell),
      ¬(cell.modifier.underlined = true ∧ cell.modifier.crossed_out = true) →
      UniqueKeys (parse_inline_style (get_cell_style_as_css w cell))) ∧
    (∀ (css field : List Char) (value : Option (List Char)),
      (∀ v, value = some v → trimChars field ≠ [] ∧ ';' ∉ trimChars field ∧
        ':' ∉ trimChars field ∧ trimChars v ≠ [] ∧ ';' ∉ trimChars v) →
      UniqueKeys (parse_inline_style css) →
      UniqueKeys (parse_inline_style (update_css_field css field value))) := by
  constructor
  · intro w cell h
    rw [parse_get_cell_style]
    refine uniqueKeys_of_map (css_pairs_keys w cell) ?_
    cases hu : cell.modifier.underlined <;> cases hc : cell.modifier.crossed_out
    · cases hb : cell.modifier.bold <;> cases hd : cell.modifier.dim <;>
        cases hi : cell.modifier.italic <;> cases hh : cell.modifier.hidden <;>
        cases hbr : contains_braille cell <;> decide
    · cases hb : cell.modifier.bold <;> cases hd : cell.modifier.dim <;>
        cases hi : cell.modifier.italic <;> cases hh : cell.modifier.hidden <;>
        cases hbr : contains_braille cell <;> decide
    · cases hb : cell.modifier.bold <;> cases hd : cell.modifier.dim <;>
        cases hi : cell.modifier.italic <;> cases hh : cell.modifier.hidden <;>
        cases hbr : contains_braille cell <;> decide
    · exact absurd ⟨hu, hc⟩ h
  · intro css field value hcond hU
    cases value with
    | none =>
      rw [parse_update_none]
      exact List.Pairwise.filter _ hU
    | some v =>
      obtain ⟨h1, h2, h3, h4, h5⟩ := hcond v rfl
      rw [parse_update_some ⟨h1, h2, h3, trimChars_idem field⟩
        ⟨h4, h5, trimChars_idem v⟩]
      exact update_or_append_unique hU

theorem c3_unique_names_amended_witness :
    UniqueKeys (parse_inline_style (get_cell_style_as_css (fun _ => 1)
      ⟨"x".data, Color.reset, Color.reset,
        ⟨true, false, false, true, false, false, false⟩⟩)) ∧
    UniqueKeys (parse_inline_style (update_css_field "color: red;".data
      "width".data (some "2ch".data))) :=
  ⟨c3_unique_names_amended.1 (fun _ => 1) _ (by decide),
   c3_unique_names_amended.2 "color: red;".data "width".data
     (some "2ch".data)
     (fun v hv => by
       cases hv
       exact ⟨by decide, by decide, by decide, by decide, by decide⟩)
     (by decide)⟩

/-- C4 counterexample: with a value containing a `';'` separator, set followed
by remove does not round-trip to "original minus the field" — the smuggled
`margin` declaration survives, and not at the end. -/
theorem c4_set_remove_counterexample :
    parse_inline_style (update_css_field (update_css_field
        "color: red; width: 2ch;".data "color".data
        (some "blue; margin: 0".data)) "color".data none) ≠
      (parse_inline_style "color: red; width: 2ch;".data).filter
        (fun p => !eq_ignore_ascii_case p.1 (trimChars "color".data)) := by
  decide

/-- C4 amended: for a well-formed field name (nonempty, no `';'`/`':'`) and
value (nonempty, no `';'`), `apply_field(…, some v)` followed by
`apply_field(…, none)` yields exactly the original declaration with every
name-matching field removed, other fields unchanged in their original order;
and the intermediate set/update preserves the original key order, appending a
new pair at the end only when the name was absent. -/
theorem c4_set_remove_roundtrip (css field v : List Char)
    (hf1 : trimChars field ≠ []) (hf2 : ';' ∉ trimChars field)
    (hf3 : ':' ∉ trimChars field) (hv1 : trimChars v ≠ [])
    (hv2 : ';' ∉ trimChars v) :
    parse_inline_style (update_css_field (update_css_field css field (some v))
        field none) =
      (parse_inline_style css).filter
        (fun p => !eq_ignore_ascii_case p.1 (trimChars field)) ∧
    ((parse_inline_style (update_css_field css field (some v))).map Prod.fst =
        (parse_inline_style css).map Prod.fst ∨
      parse_inline_style (update_css_field css field (some v)) =
        parse_inline_style css ++ [(trimChars field, trimChars v)]) := by
  have hk : CleanKey (trimChars field) := ⟨hf1, hf2, hf3, trimChars_idem field⟩
  have hv : CleanVal (trimChars v) := ⟨hv1, hv2, trimChars_idem v⟩
  constructor
  · rw [parse_update_none, parse_update_some hk hv, filter_update_or_append]
  · rw [parse_update_some hk hv]
    by_cases hfound : ∃ p ∈ parse_inline_style css,
        eq_ignore_ascii_case p.1 (trimChars field) = true
    · left
      exact update_or_append_found_fst hfound
    · right
      apply update_or_append_not_found
      intro p hp
      push_neg at hfound
      simpa using hfound p hp

theorem c4_set_remove_roundtrip_witness :
    (trimChars "color".data ≠ [] ∧ ';' ∉ trimChars "color".data ∧
     ':' ∉ trimChars "color".data ∧ trimChars "blue".data ≠ [] ∧
     ';' ∉ trimChars "blue".data) ∧
    parse_inline_style (update_css_field (update_css_field
        "color: red; width: 2ch;".data "color".data (some "blue".data))
        "color".data none) =
      (parse_inline_style "color: red; width: 2ch;".data).filter
        (fun p => !eq_ignore_ascii_case p.1 (trimChars "color".data)) :=
  ⟨⟨by decide, by decide, by decide, by decide, by decide⟩,
   (c4_set_remove_roundtrip "color: red; width: 2ch;".data "color".data
     "blue".data (by decide) (by decide) (by decide) (by decide)
     (by decide)).1⟩

/-- C9: the composed declaration contains the
`font-variant-numeric: tabular-nums` property exactly when the first character
of the cell's glyph lies in the Braille Unicode block U+2800-U+28FF. -/
theorem c9_braille_tabular_nums (w : List Char → Nat) (cell : Cell) :
    (("font-variant-numeric".data, "tabular-nums".data) ∈
        parse_inline_style (get_cell_style_as_css w cell)) ↔
      (∃ c, cell.symbol.head? = some c ∧
        0x2800 ≤ c.toNat ∧ c.toNat ≤ 0x28FF) := by
  have h1 : (("font-variant-numeric".data, "tabular-nums".data) ∈
      parse_inline_style (get_cell_style_as_css w cell)) ↔
      contains_braille cell = true := by
    rw [parse_get_cell_style, css_pairs]
    by_cases hbr : contains_braille cell = true
    · simp [hbr, mem_ite_nil]
    · have hbr' : contains_braille cell = false := by simpa using hbr
      simp [hbr', mem_ite_nil]
  rw [h1]
  constructor
  · intro h
    rw [contains_braille] at h
    cases hsym : cell.symbol with
    | nil => rw [hsym] at h; simp at h
    | cons a t =>
      rw [hsym] at h
      simp only [Bool.and_eq_true, decide_eq_true_eq] at h
      exact ⟨a, rfl, h.1, h.2⟩
  · rintro ⟨c, hc, hc1, hc2⟩
    rw [contains_braille]
    cases hsym : cell.symbol with
    | nil => rw [hsym] at hc; simp at hc
    | cons a t =>
      rw [hsym] at hc
      simp only [List.head?_cons, Option.some.injEq] at hc
      simp only [Bool.and_eq_true, decide_eq_true_eq]
      exact ⟨hc ▸ hc1, hc ▸ hc2⟩
